import Mathlib

/-!
Verification of the DynamO event-driven molecular-dynamics engine core,
shallowly embedded from the C++ sources (`simulation.cpp`, the cell-list
header, `dumbbells.cpp`, `compression.cpp`, `sphericalTop.cpp`,
`ParabolaSentinel.cpp`).  Each C++ routine relevant to the checked
properties is translated into an executable Lean definition; machine
floating point is modelled by exact arithmetic (`Rat`/`Real`), C++
exceptions by `Except`, and in-place mutation by explicit state passing.
-/

namespace DynamoSpec

/-! ## Interaction dispatch (`Simulation::getInteraction` / `Simulation::getEvent`)

An `Interaction` is modelled by its two observable features used in the
dispatch loop: the 2-range selector `isInteraction` and the event it
produces for a pair (`ptr->getEvent(p1,p2)` is an opaque virtual call,
modelled as a function of the pair).  Particles are identified by their
integer IDs. -/

structure Interaction (α : Type) where
  isInteraction : Nat → Nat → Bool
  eventOf : Nat → Nat → α

/-- `Simulation::getInteraction`: scan the `interactions` list in order and
return the first entry whose selector matches; `M_throw` if none does. -/
def getInteraction {α : Type} : List (Interaction α) → Nat → Nat → Except String (Interaction α)
  | [], _, _ => .error "Could not find an Interaction between particles. All particle pairings must have a corresponding Interaction defined."
  | i :: rest, p1, p2 =>
    if i.isInteraction p1 p2 then .ok i else getInteraction rest p1 p2

/-- `Simulation::getEvent`: scan the `interactions` list in order and return
the event of the first entry whose selector matches; `M_throw` if none does. -/
def getEvent {α : Type} : List (Interaction α) → Nat → Nat → Except String α
  | [], _, _ => .error "Could not find the right interaction to test for"
  | i :: rest, p1, p2 =>
    if i.isInteraction p1 p2 then .ok (i.eventOf p1 p2) else getEvent rest p1 p2

/-! ## Dumbbell interaction events (`IDumbbells::runEvent`)

The capture map is kept as a list of unordered pairs, stored sorted.
`ISingleCapture::addToCaptureMap` / `removeFromCaptureMap` themselves are
declared outside the available sources, so their bodies are taken from the
specification. -/

/-- Event types appearing in `IDumbbells::runEvent`'s switch (the full
`EEventType` enumeration is wider; any type other than the three handled
ones falls to the `default:` branch). -/
inductive EEventType where
  | NONE_T | CORE | WELL_IN | WELL_OUT | BOUNCE | CELL | VIRTUAL_PARABOLA
deriving DecidableEq, Repr

/-- The unordered pair of two particle IDs, stored with the smaller first. -/
def capKey (p1 p2 : Nat) : Nat × Nat := (min p1 p2, max p1 p2)

/-- Modelled from the spec: the capture map is "a symmetric set of
currently-captured pairs"; `ISingleCapture::addToCaptureMap` (whose body is
not among the sources) inserts the unordered pair into the set. -/
def addToCaptureMap (m : List (Nat × Nat)) (p1 p2 : Nat) : List (Nat × Nat) :=
  capKey p1 p2 :: m

/-- Modelled from the spec: `ISingleCapture::removeFromCaptureMap` (whose
body is not among the sources) removes the unordered pair from the set. -/
def removeFromCaptureMap (m : List (Nat × Nat)) (p1 p2 : Nat) : List (Nat × Nat) :=
  m.filter (fun q => q ≠ capKey p1 p2)

/-- The pieces of simulation state read or written by `IDumbbells::runEvent`:
the global event counter, the capture map, the free-stream accumulator, and
flags recording that the scheduler full-update / particle-update signals
were issued (their downstream effects are outside this interaction). -/
structure DumbbellSimState where
  eventCount : Nat
  captureMap : List (Nat × Nat)
  freestreamAcc : Rat
  fullUpdated : Bool
  particlesUpdated : Bool
deriving DecidableEq, Repr

/-- `IDumbbells::runEvent(p1, p2, iEvent)`.  `CORE` increments the event
count, runs the collision kernel (opaque), signals the particle update and
requests a full scheduler update; `WELL_IN` / `WELL_OUT` update the capture
map, request a full update and accumulate the free-stream time; any other
event type hits the `default:` branch, `M_throw() << "Unknown collision
type"`. -/
def IDumbbells_runEvent (st : DumbbellSimState) (p1 p2 : Nat)
    (etype : EEventType) (dt : Rat) : Except String DumbbellSimState :=
  match etype with
  | .CORE =>
    .ok { st with eventCount := st.eventCount + 1
                , particlesUpdated := true
                , fullUpdated := true }
  | .WELL_IN =>
    .ok { st with captureMap := addToCaptureMap st.captureMap p1 p2
                , fullUpdated := true
                , freestreamAcc := st.freestreamAcc + dt }
  | .WELL_OUT =>
    .ok { st with captureMap := removeFromCaptureMap st.captureMap p1 p2
                , fullUpdated := true
                , freestreamAcc := st.freestreamAcc + dt }
  | _ => .error "Unknown collision type"

/-! ## Periodic-image size check in `Simulation::initialise` -/

/-- The spatial dimension (`NDIM` in the sources). -/
def NDIM : Nat := 3

/-- `Simulation::getLongestInteraction`: fold over the interactions,
keeping the largest `maxIntDist()` (starting from `0.0`).  Represented on
the list of the interactions' `maxIntDist()` values. -/
def getLongestInteraction (maxIntDists : List Rat) : Rat :=
  maxIntDists.foldl (fun maxval d => if maxval < d then d else maxval) 0

/-- The periodic-boundary-condition check inside `Simulation::initialise`:
when the boundary condition is `BCPeriodic`, loop over the dimensions and
`M_throw` at the first `i` with `primaryCellSize[i] <= 2.0 *
max_interaction_dist`. -/
def checkPBCImageSize (periodic : Bool) (primaryCellSize : Fin NDIM → Rat)
    (maxIntDists : List Rat) : Except String Unit :=
  if periodic then
    match (List.finRange NDIM).find?
        (fun i => decide (primaryCellSize i ≤ 2 * getLongestInteraction maxIntDists)) with
    | some _ => .error "When using periodic boundary conditions, the size of the primary image must be at least 2x the maximum interaction distance in all dimensions, otherwise one particle can interact with multiple periodic images of another particle."
    | none => .ok ()
  else .ok ()

/-! ## Unit scaling on configuration load / save -/

/-- `SpSphericalTop::operator<<`: on load the XML `InertiaConstant` is
multiplied by `Sim->units.unitArea()`. -/
def loadInertiaConstant (xmlVal unitArea : Rat) : Rat := xmlVal * unitArea

/-- `SpSphericalTop::outputXML`: on save the internal `inertiaConstant` is
divided by `Sim->units.unitArea()`. -/
def saveInertiaConstant (v unitArea : Rat) : Rat := v / unitArea

/-- `Simulation::loadXMLfile`: the `SimulationSize` read from the XML is
divided by `units.unitLength()` (`primaryCellSize /= units.unitLength()`). -/
def loadSimulationSize (xmlVal unitLength : Rat) : Rat := xmlVal / unitLength

/-- `Simulation::writeXMLfile`: the `SimulationSize` written to the XML is
`primaryCellSize / units.unitLength()`. -/
def saveSimulationSize (v unitLength : Rat) : Rat := v / unitLength

/-- `Simulation::loadXMLfile`: the loaded `lastMFT` attribute is multiplied
by `units.unitTime()` (`lastRunMFT *= units.unitTime()`). -/
def loadLastMFT (xmlVal unitTime : Rat) : Rat := xmlVal * unitTime

/-! ## The step API: `runSimulationStep` / `simShutdown` -/

/-- The ordinal of the `INITIALISED` lifecycle status (the last entry of
`START → SPECIES_INIT → … → OUTPUTPLUGIN_INIT → INITIALISED`). -/
def INITIALISED : Nat := 10

/-- The simulation fields read or written by `Simulation::runSimulationStep`
and `Simulation::simShutdown`.  `nextPrintTarget` models the `_nextPrint`
member. -/
structure SimStepState where
  status : Nat
  eventCount : Nat
  endEventCount : Nat
  nextPrintEvent : Nat
  nextPrintTarget : Nat
  eventPrintInterval : Nat
deriving DecidableEq, Repr

/-- `Simulation::simShutdown()`: `nextPrintEvent = endEventCount = eventCount`. -/
def simShutdown (st : SimStepState) : SimStepState :=
  { st with nextPrintEvent := st.eventCount, endEventCount := st.eventCount }

/-- `Simulation::runSimulationStep(silentMode)`.  The scheduler call
`ptrScheduler->runNextEvent()` is an opaque virtual call, modelled by the
function argument `runNext`; since the C++ mutates the simulation in place,
a thrown exception carries the state at the moment of the throw.  The body:
throw on a pre-`INITIALISED` status; run the next event; do the periodic
output bookkeeping; on any `std::exception` re-throw wrapped with the event
count; finally return `eventCount < endEventCount`. -/
def runSimulationStep
    (runNext : SimStepState → Except (SimStepState × String) SimStepState)
    (silentMode hasOutputPlugins : Bool) (st : SimStepState) :
    Except (SimStepState × String) (SimStepState × Bool) :=
  if st.status < INITIALISED then .error (st, "Bad state for runSimulation()")
  else
    match runNext st with
    | .error (st1, msg) =>
      .error (st1, "Exception caught while executing event "
                ++ toString st1.eventCount ++ "\n" ++ msg)
    | .ok st1 =>
      let st2 := if st1.nextPrintTarget ≤ st1.eventCount ∧ silentMode = false
                      ∧ hasOutputPlugins = true
                 then { st1 with nextPrintTarget := st1.eventCount + st1.eventPrintInterval }
                 else st1
      .ok (st2, decide (st2.eventCount < st2.endEventCount))

/-- Iterated calls to `runSimulationStep`: `k + 1` calls, stopping at the
first exception. -/
def runSimulationSteps
    (runNext : SimStepState → Except (SimStepState × String) SimStepState)
    (silentMode hasOutputPlugins : Bool) :
    Nat → SimStepState → Except (SimStepState × String) (SimStepState × Bool)
  | 0, st => runSimulationStep runNext silentMode hasOutputPlugins st
  | k + 1, st =>
    match runSimulationStep runNext silentMode hasOutputPlugins st with
    | .ok (st1, _) => runSimulationSteps runNext silentMode hasOutputPlugins k st1
    | .error e => .error e

/-! ## Compression: `IPCompression::limitPackingFraction`

Floating-point doubles are modelled by `Real`; `pow(x, 1.0/3.0)` is the
real power `x ^ ((1 : Real)/3)`. -/

/-- `IPCompression::limitPackingFraction(targetp)`: `M_throw` when the
target packing fraction is below the current one, otherwise `push_back` a
`SystHalt` system event at `(pow(targetp / packfrac, 1.0/3.0) - 1.0) /
growthRate`.  `systems` is the list of scheduled system-event times. -/
noncomputable def limitPackingFraction (growthRate packfrac targetp : Real)
    (systems : List Real) : Except String (List Real) :=
  if targetp < packfrac then .error "Target packing fraction is lower than current!"
  else .ok (systems ++ [((targetp / packfrac) ^ ((1 : Real)/3) - 1) / growthRate])

/-! ## The parabola sentinel: `GParabolaSentinel::runEvent`

`Sim->liouvillean` is an opaque collaborator: `updateParticle` (stream a
particle to the current simulation time), `getParabolaSentinelTime` and
`enforceParabola` are taken as function parameters.  A
`getParabolaSentinelTime` result of `HUGE_VAL` is modelled as `none`. -/

/-- A particle's kinematic state (position, velocity, per-particle time). -/
structure PState where
  pos : Real
  vel : Real
  pecTime : Real

/-- The simulation state touched by `GParabolaSentinel::runEvent`:
`Sim->dSysTime`, `Sim->freestreamAcc`, the total time streamed through
`Sim->ptrScheduler->stream` and through `Sim->stream`, the particle, and a
counter of issued `fullUpdate` requests. -/
structure SentinelSimState where
  dSysTime : Real
  freestreamAcc : Real
  schedStreamed : Real
  systemsStreamed : Real
  part : PState
  fullUpdates : Nat

/-- `GParabolaSentinel::getEvent(part)`: update the particle to the current
time, then build a `VIRTUAL_PARABOLA` event at
`liouvillean->getParabolaSentinelTime(part)`.  Returns the (streamed)
particle and the event time (`none` = `HUGE_VAL`). -/
def GParabolaSentinel_getEvent (sentinelTime : PState → Option Real)
    (updatePart : Real → PState → PState) (st : SentinelSimState) (p : PState) :
    PState × Option Real :=
  let p1 := updatePart st.dSysTime p
  (p1, sentinelTime p1)

/-- `GParabolaSentinel::runEvent(part)` (production path, i.e. without
`DYNAMO_DEBUG`): update the particle, recompute the event via `getEvent`;
if its time is `HUGE_VAL` only request a full scheduler update and return;
otherwise advance `dSysTime`, stream the scheduler and the simulation by
`dt`, `enforceParabola` the particle, accumulate `freestreamAcc`, and
request a full update. -/
def GParabolaSentinel_runEvent (sentinelTime : PState → Option Real)
    (updatePart : Real → PState → PState) (enforceParabola : PState → PState)
    (st : SentinelSimState) : SentinelSimState :=
  let p1 := updatePart st.dSysTime st.part
  let ev := GParabolaSentinel_getEvent sentinelTime updatePart st p1
  match ev.2 with
  | none =>
    { st with part := ev.1, fullUpdates := st.fullUpdates + 1 }
  | some dt =>
    { dSysTime := st.dSysTime + dt
    , freestreamAcc := st.freestreamAcc + dt
    , schedStreamed := st.schedStreamed + dt
    , systemsStreamed := st.systemsStreamed + dt
    , part := enforceParabola (ev.1)
    , fullUpdates := st.fullUpdates + 1 }

/-! ## Replica exchange: `Simulation::replexerSwap` -/

/-- The simulation fields read or written by `Simulation::replexerSwap`.
Velocities are the flattened velocity components of all particles (the
species masses drop out of every statement below, so they are taken as 1);
`ensembleVals 2` is the ensemble's temperature entry
(`ensemble->getEnsembleVals()[2]`); `dynamicsState` stands for the internal
state exchanged by `dynamics->replicaExchange` and
`systems[i]->replicaExchange`. -/
structure ReplexSim where
  systemTime : Real
  eventCount : Nat
  dynamicsState : Nat
  velocities : List Real
  schedTimes : List Real
  systemEventsRebuilt : Bool
  ensembleVals : Fin 3 → Real

/-- `Simulation::replexerSwap(other)`: swap system clocks and event counts,
exchange the dynamics/system internal state, compute `scale1 =
sqrt(other.ensemble[2] / ensemble[2])`, multiply this simulation's
velocities by `scale1` and the partner's scheduler times by `scale1`,
multiply the partner's velocities by `scale2 = 1/scale1` and this
simulation's scheduler times by `scale2`, rebuild both schedulers' SYSTEM
events, and finally swap the ensembles.  Returns the pair (this, other)
after the call. -/
noncomputable def replexerSwap (a b : ReplexSim) : ReplexSim × ReplexSim :=
  let scale1 := Real.sqrt (b.ensembleVals 2 / a.ensembleVals 2)
  let scale2 := 1 / scale1
  ({ systemTime := b.systemTime
   , eventCount := b.eventCount
   , dynamicsState := b.dynamicsState
   , velocities := a.velocities.map (fun v => v * scale1)
   , schedTimes := a.schedTimes.map (fun t => t * scale2)
   , systemEventsRebuilt := true
   , ensembleVals := b.ensembleVals },
   { systemTime := a.systemTime
   , eventCount := a.eventCount
   , dynamicsState := a.dynamicsState
   , velocities := b.velocities.map (fun v => v * scale2)
   , schedTimes := b.schedTimes.map (fun t => t * scale1)
   , systemEventsRebuilt := true
   , ensembleVals := a.ensembleVals })

/-- Total kinetic energy of a simulation, up to the uniform factor m/2:
the sum of the squared velocity components. -/
def kineticEnergy (s : ReplexSim) : Real :=
  (s.velocities.map (fun v => v ^ 2)).sum


/-- The full effect of `replexerSwap` on the pair (A, B), as a predicate:
clocks and event counts swapped, A's velocities scaled by
`scale1 = sqrt(T_B/T_A)` and B's by `1/scale1`, A's scheduler times scaled
by `1/scale1` and B's by `scale1`, both schedulers' SYSTEM events rebuilt,
ensembles swapped, and the kinetic energies scaled by the temperature
ratios. -/
def ReplexSwapSpec (a b : ReplexSim) : Prop :=
  (replexerSwap a b).1.systemTime = b.systemTime ∧
  (replexerSwap a b).2.systemTime = a.systemTime ∧
  (replexerSwap a b).1.eventCount = b.eventCount ∧
  (replexerSwap a b).2.eventCount = a.eventCount ∧
  (replexerSwap a b).1.velocities
    = a.velocities.map (fun v => v * Real.sqrt (b.ensembleVals 2 / a.ensembleVals 2)) ∧
  (replexerSwap a b).2.velocities
    = b.velocities.map (fun v => v * (1 / Real.sqrt (b.ensembleVals 2 / a.ensembleVals 2))) ∧
  (replexerSwap a b).1.schedTimes
    = a.schedTimes.map (fun t => t * (1 / Real.sqrt (b.ensembleVals 2 / a.ensembleVals 2))) ∧
  (replexerSwap a b).2.schedTimes
    = b.schedTimes.map (fun t => t * Real.sqrt (b.ensembleVals 2 / a.ensembleVals 2)) ∧
  (replexerSwap a b).1.systemEventsRebuilt = true ∧
  (replexerSwap a b).2.systemEventsRebuilt = true ∧
  (replexerSwap a b).1.ensembleVals = b.ensembleVals ∧
  (replexerSwap a b).2.ensembleVals = a.ensembleVals ∧
  kineticEnergy (replexerSwap a b).1
    = (b.ensembleVals 2 / a.ensembleVals 2) * kineticEnergy a ∧
  kineticEnergy (replexerSwap a b).2
    = (a.ensembleVals 2 / b.ensembleVals 2) * kineticEnergy b

/-! ## The cell list: `CGCells::addToCell` / `CGCells::removeFromCell`

`partCellData` is the parallel array of `partCEntry { int prev; int next;
int cell; }` records indexed by particle ID, and `cells[c].list` holds the
head particle ID of cell `c`'s intrusive doubly-linked list (`-1` =
empty/none).  Both arrays are modelled as total functions on `Int`
(the C++ indexes them with `int`s); the release (non-`DYNAMO_DEBUG`)
branches are embedded. -/

structure PartCEntry where
  prev : Int
  next : Int
  cell : Int
deriving DecidableEq, Repr

/-- The state of the cell list: `partCellData` and the per-cell `list`
heads. -/
structure CellListState where
  partCellData : Int → PartCEntry
  list : Int → Int

/-- `partCellData[i].prev = v` as a functional update. -/
def updPrev (f : Int → PartCEntry) (i v : Int) : Int → PartCEntry :=
  fun j => if j = i then { f i with prev := v } else f j

/-- `partCellData[i].next = v` as a functional update. -/
def updNext (f : Int → PartCEntry) (i v : Int) : Int → PartCEntry :=
  fun j => if j = i then { f i with next := v } else f j

/-- `partCellData[i].cell = v` as a functional update. -/
def updCell (f : Int → PartCEntry) (i v : Int) : Int → PartCEntry :=
  fun j => if j = i then { f i with cell := v } else f j

/-- The effect of `CGCells::removeFromCell(ID)` on `partCellData`: if the
particle has a predecessor, splice its `next` link past `ID`; if the
particle has a successor, splice its `prev` link past `ID`.  (All reads of
`partCellData[ID]` in the C++ see the entry's original value.) -/
def removePCD (pcd : Int → PartCEntry) (x : Int) : Int → PartCEntry :=
  let e := pcd x
  let pcd1 := if e.prev ≠ -1 then updNext pcd e.prev e.next else pcd
  if e.next ≠ -1 then updPrev pcd1 e.next e.prev else pcd1

/-- `CGCells::removeFromCell(ID)`: splice `ID` out of its cell's
doubly-linked list; when `ID` is the head (`prev == -1`), the cell's `list`
head moves to `ID`'s successor. -/
def removeFromCell (st : CellListState) (x : Int) : CellListState :=
  let e := st.partCellData x
  { partCellData := removePCD st.partCellData x
  , list := if e.prev ≠ -1 then st.list
            else fun c => if c = e.cell then e.next else st.list c }

/-- The effect of `CGCells::addToCell(ID, cellID)` on `partCellData`, where
`oldHead` is the value of `cells[cellID].list` on entry: the old head's
`prev` is set to `ID` (when the cell was non-empty), then `ID`'s entry is
set to `{ prev = -1, next = oldHead, cell = cellID }`, following the
statement order of the C++. -/
def addPCD (pcd : Int → PartCEntry) (x cellID oldHead : Int) : Int → PartCEntry :=
  let pcd1 := if oldHead ≠ -1 then updPrev pcd oldHead x else pcd
  let pcd2 := updNext pcd1 x oldHead
  let pcd3 := updPrev pcd2 x (-1)
  updCell pcd3 x cellID

/-- `CGCells::addToCell(ID, cellID)`: push `ID` at the front of cell
`cellID`'s doubly-linked list. -/
def addToCell (st : CellListState) (x cellID : Int) : CellListState :=
  let oldHead := st.list cellID
  { partCellData := addPCD st.partCellData x cellID oldHead
  , list := fun c => if c = cellID then x else st.list c }

/-- `chainB pcd c p h l`: the links in `pcd` encode `l` as the
doubly-linked chain of cell `c` starting at head pointer `h` whose first
element's `prev` is `p`; the empty chain is the null pointer `-1`.  Every
member must be a valid (non-negative) particle ID, carry cell `c`, point
back at its predecessor and forward to its successor. -/
def chainB (pcd : Int → PartCEntry) (c : Int) : Int → Int → List Int → Bool
  | _, h, [] => h == -1
  | p, h, x :: rest =>
    (h == x) && decide (0 ≤ x) && ((pcd x).prev == p) && ((pcd x).cell == c)
      && chainB pcd c x (pcd x).next rest

/-- Cell `c`'s resident list is the well-formed doubly-linked chain `l`. -/
def cellChain (st : CellListState) (c : Int) (l : List Int) : Bool :=
  chainB st.partCellData c (-1) (st.list c) l

/-- The head of a chain as a pointer: `-1` for the empty chain. -/
def headOr : List Int → Int
  | [] => -1
  | y :: _ => y

/-- The last element of a list, or `p` if the list is empty. -/
def lastOr : List Int → Int → Int
  | [], p => p
  | a :: rest, _ => lastOr rest a

/-- The cell indices and particle IDs of a configured cell list. -/
structure CellConfig where
  cells : List Int
  parts : List Int

/-- Well-formedness of a cell-list state with respect to an assignment `A`
of a resident chain to each cell: every cell's links encode its chain with
no duplicates (hence no cycles and no orphans), chain members are
particles, and every particle is in exactly one cell. -/
def wfCellList (cfg : CellConfig) (st : CellListState) (A : Int → List Int) : Prop :=
  (∀ c ∈ cfg.cells, cellChain st c (A c) = true) ∧
  (∀ c ∈ cfg.cells, (A c).Nodup) ∧
  (∀ c ∈ cfg.cells, ∀ y ∈ A c, y ∈ cfg.parts) ∧
  (∀ y ∈ cfg.parts, ∃ c ∈ cfg.cells, y ∈ A c) ∧
  (∀ y ∈ cfg.parts, ∀ c1 ∈ cfg.cells, ∀ c2 ∈ cfg.cells,
    y ∈ A c1 → y ∈ A c2 → c1 = c2)

/-- The intended effect of moving particle `x` to cell `cTarget` on the
chain assignment: `x` is removed from wherever it was and pushed at the
front of `cTarget`'s chain; all other chain positions are untouched. -/
def moveChains (A : Int → List Int) (x cTarget : Int) : Int → List Int :=
  fun c' => if c' = cTarget then x :: (A c').filter (fun y => y ≠ x)
            else (A c').filter (fun y => y ≠ x)

/-! ### Theorems for claims C1 and C2 -/

/-- C1: for every pair of particles, `Simulation::getInteraction` and
`Simulation::getEvent` return the first Interaction in the list (in list
order) whose selector matches the pair — any later matching interaction is
never consulted — and when no interaction matches, both raise an error. -/
theorem getInteraction_getEvent_first_match {α : Type}
    (ints : List (Interaction α)) (p1 p2 : Nat) :
    (∀ i : Fin ints.length,
      (ints.get i).isInteraction p1 p2 = true →
      (∀ j : Fin ints.length, (j : Nat) < (i : Nat) →
        (ints.get j).isInteraction p1 p2 = false) →
      getInteraction ints p1 p2 = .ok (ints.get i) ∧
      getEvent ints p1 p2 = .ok ((ints.get i).eventOf p1 p2)) ∧
    ((∀ a ∈ ints, a.isInteraction p1 p2 = false) →
      (∃ e, getInteraction ints p1 p2 = .error e) ∧
      (∃ e, getEvent ints p1 p2 = .error e)) := by
  induction ints with
  | nil =>
    refine ⟨fun i => absurd i.isLt (by simp), fun _ => ⟨⟨_, rfl⟩, ⟨_, rfl⟩⟩⟩
  | cons a rest ih =>
    constructor
    · intro i hmatch hearlier
      match i with
      | ⟨0, h0⟩ =>
        simp only [List.get] at hmatch ⊢
        simp [getInteraction, getEvent, hmatch]
      | ⟨n + 1, hn⟩ =>
        have ha : a.isInteraction p1 p2 = false := by
          have := hearlier ⟨0, Nat.succ_pos _⟩ (Nat.succ_pos _)
          simpa using this
        have hrest := (ih.1 ⟨n, Nat.lt_of_succ_lt_succ hn⟩)
        simp only [List.get] at hmatch ⊢
        have hres := hrest hmatch (fun j hj => by
          have := hearlier ⟨j + 1, Nat.succ_lt_succ j.isLt⟩ (Nat.succ_lt_succ hj)
          simpa using this)
        simp [getInteraction, getEvent, ha, hres.1, hres.2]
    · intro hnone
      have ha : a.isInteraction p1 p2 = false := hnone a (by simp)
      have hrest := ih.2 (fun b hb => hnone b (by simp [hb]))
      obtain ⟨⟨e1, he1⟩, ⟨e2, he2⟩⟩ := hrest
      exact ⟨⟨e1, by simp [getInteraction, ha, he1]⟩,
             ⟨e2, by simp [getEvent, ha, he2]⟩⟩

/-- Witness for C1: on a two-element list where both selectors match, the
first interaction (and its event) is returned; on a list whose only
selector rejects, both calls raise. -/
theorem getInteraction_getEvent_first_match_witness :
    (getInteraction [⟨fun _ _ => true, fun _ _ => (10 : Nat)⟩,
                     ⟨fun _ _ => true, fun _ _ => (20 : Nat)⟩] 0 1
       = .ok ⟨fun _ _ => true, fun _ _ => (10 : Nat)⟩ ∧
     getEvent [(⟨fun _ _ => true, fun _ _ => (10 : Nat)⟩ : Interaction Nat),
               ⟨fun _ _ => true, fun _ _ => (20 : Nat)⟩] 0 1 = .ok 10) ∧
    ((∃ e, getInteraction [(⟨fun _ _ => false, fun _ _ => (10 : Nat)⟩ : Interaction Nat)] 0 1
        = .error e) ∧
     (∃ e, getEvent [(⟨fun _ _ => false, fun _ _ => (10 : Nat)⟩ : Interaction Nat)] 0 1
        = .error e)) := by
  constructor
  · exact (getInteraction_getEvent_first_match
      [⟨fun _ _ => true, fun _ _ => (10 : Nat)⟩,
       ⟨fun _ _ => true, fun _ _ => (20 : Nat)⟩] 0 1).1 ⟨0, by simp⟩ rfl
      (fun j hj => absurd hj (by simp))
  · exact (getInteraction_getEvent_first_match
      [(⟨fun _ _ => false, fun _ _ => (10 : Nat)⟩ : Interaction Nat)] 0 1).2
      (fun a ha => by
        simp only [List.mem_singleton] at ha
        subst ha; rfl)

/-- C2: `IDumbbells::runEvent` changes the capture map only at `WELL_IN`
events (the unordered pair is inserted) and `WELL_OUT` events (the pair is
removed); a `CORE` event leaves the capture map unchanged; any other event
type raises an error. -/
theorem IDumbbells_runEvent_capture_map (st : DumbbellSimState)
    (p1 p2 : Nat) (dt : Rat) :
    (∃ st1, IDumbbells_runEvent st p1 p2 .CORE dt = .ok st1 ∧
       st1.captureMap = st.captureMap) ∧
    (∃ st2, IDumbbells_runEvent st p1 p2 .WELL_IN dt = .ok st2 ∧
       st2.captureMap = addToCaptureMap st.captureMap p1 p2) ∧
    (∃ st3, IDumbbells_runEvent st p1 p2 .WELL_OUT dt = .ok st3 ∧
       st3.captureMap = removeFromCaptureMap st.captureMap p1 p2) ∧
    (∀ etype : EEventType, etype ≠ .CORE → etype ≠ .WELL_IN → etype ≠ .WELL_OUT →
       ∃ e, IDumbbells_runEvent st p1 p2 etype dt = .error e) := by
  refine ⟨⟨_, rfl, rfl⟩, ⟨_, rfl, rfl⟩, ⟨_, rfl, rfl⟩, ?_⟩
  intro etype h1 h2 h3
  cases etype <;> first
    | exact absurd rfl h1
    | exact absurd rfl h2
    | exact absurd rfl h3
    | exact ⟨_, rfl⟩

/-- Witness for C2 at a concrete state: running a `CELL`-typed event through
the dumbbell handler raises. -/
theorem IDumbbells_runEvent_capture_map_witness :
    ∃ e, IDumbbells_runEvent ⟨0, [], 0, false, false⟩ 0 1 .CELL 0 = .error e :=
  (IDumbbells_runEvent_capture_map ⟨0, [], 0, false, false⟩ 0 1 0).2.2.2 .CELL
    (by decide) (by decide) (by decide)

/-! ### Theorems for claims C5, C6, C7 and C8 -/

/-- C5: under a periodic boundary condition, `Simulation::initialise` raises
a fatal configuration error when some dimension `i` has
`primaryCellSize[i] < 2 * rmax` (`rmax` the longest interaction distance),
and proceeds past the check without error when every dimension has
`primaryCellSize[i] > 2 * rmax`. -/
theorem checkPBCImageSize_spec (primaryCellSize : Fin NDIM → Rat)
    (maxIntDists : List Rat) :
    ((∃ i, primaryCellSize i < 2 * getLongestInteraction maxIntDists) →
      ∃ e, checkPBCImageSize true primaryCellSize maxIntDists = .error e) ∧
    ((∀ i, 2 * getLongestInteraction maxIntDists < primaryCellSize i) →
      checkPBCImageSize true primaryCellSize maxIntDists = .ok ()) := by
  constructor
  · rintro ⟨i, hi⟩
    rw [checkPBCImageSize]
    simp only [if_pos rfl]
    have : ((List.finRange NDIM).find?
        (fun i => decide (primaryCellSize i ≤ 2 * getLongestInteraction maxIntDists))).isSome := by
      rw [List.find?_isSome]
      exact ⟨i, List.mem_finRange i, by simpa using le_of_lt hi⟩
    match hfind : (List.finRange NDIM).find?
        (fun i => decide (primaryCellSize i ≤ 2 * getLongestInteraction maxIntDists)) with
    | some j => exact ⟨_, rfl⟩
    | none => rw [hfind] at this; simp at this
  · intro hall
    rw [checkPBCImageSize]
    simp only [if_pos rfl]
    have : (List.finRange NDIM).find?
        (fun i => decide (primaryCellSize i ≤ 2 * getLongestInteraction maxIntDists)) = none := by
      rw [List.find?_eq_none]
      intro j _
      simpa using not_le_of_lt (hall j)
    rw [this]
    rfl

/-- Witness for C5: the box `(1,1,1)` with a single interaction of range
`1` raises (every dimension is too small), while ranges up to `0.4` pass. -/
theorem checkPBCImageSize_spec_witness :
    (∃ e, checkPBCImageSize true (fun _ => 1) [1] = .error e) ∧
    checkPBCImageSize true (fun _ => 1) [(2 : Rat)/5] = .ok () :=
  ⟨(checkPBCImageSize_spec (fun _ => 1) [1]).1
     ⟨⟨0, by norm_num [NDIM]⟩, by norm_num [getLongestInteraction]⟩,
   (checkPBCImageSize_spec (fun _ => 1) [(2 : Rat)/5]).2
     (fun i => by norm_num [getLongestInteraction])⟩

/-- Counterexample for C6: on `SimulationSize` loading *divides* the XML
value by `unitLength` (it does not multiply), so with `unitLength = 2` a
saved internal size of `1` loads back as `1/4`, and the load of the XML
value `3` differs from `3 * unitLength`: load and save are not mutually
inverse on this quantity. -/
theorem loadSimulationSize_not_inverse :
    loadSimulationSize (saveSimulationSize 1 2) 2 ≠ 1 ∧
    loadSimulationSize 3 2 ≠ 3 * 2 := by
  constructor <;> norm_num [loadSimulationSize, saveSimulationSize]

/-- C6 (amended): `InertiaConstant` follows the claimed rule — multiplied
by `unitArea` on load, divided on save, so load and save are mutually
inverse on it — and `lastMFT` is multiplied by `unitTime` on load; but
`SimulationSize` is divided by `unitLength` on load as well as on save, so
its load-after-save equals division by `unitLength²` and is the identity
only when `unitLength² = 1`. -/
theorem load_save_unit_scaling (x A L T : Rat) (hA : A ≠ 0) :
    loadInertiaConstant (saveInertiaConstant x A) A = x ∧
    saveInertiaConstant (loadInertiaConstant x A) A = x ∧
    loadLastMFT x T = x * T ∧
    loadSimulationSize (saveSimulationSize x L) L = x / (L * L) := by
  refine ⟨?_, ?_, rfl, ?_⟩
  · rw [loadInertiaConstant, saveInertiaConstant, div_mul_cancel₀ x hA]
  · rw [loadInertiaConstant, saveInertiaConstant, mul_div_cancel_right₀ x hA]
  · rw [loadSimulationSize, saveSimulationSize, div_div]

/-- Witness for C6 (amended) at `x = 6`, `unitArea = 2`, `unitLength = 2`,
`unitTime = 5`. -/
theorem load_save_unit_scaling_witness :
    loadInertiaConstant (saveInertiaConstant 6 2) 2 = 6 ∧
    saveInertiaConstant (loadInertiaConstant 6 2) 2 = 6 ∧
    loadLastMFT 6 5 = 6 * 5 ∧
    loadSimulationSize (saveSimulationSize 6 2) 2 = 6 / (2 * 2) :=
  load_save_unit_scaling 6 2 2 5 (by norm_num)

/-- C7: for an initialised simulation, when `ptrScheduler->runNextEvent()`
throws during `Simulation::runSimulationStep`, the exception is caught and
re-thrown wrapped with the current event count, and `runSimulationStep`
does not return normally for that step. -/
theorem runSimulationStep_wraps_exception
    (runNext : SimStepState → Except (SimStepState × String) SimStepState)
    (silentMode hasOutputPlugins : Bool) (st st1 : SimStepState) (msg : String)
    (hinit : INITIALISED ≤ st.status)
    (herr : runNext st = .error (st1, msg)) :
    runSimulationStep runNext silentMode hasOutputPlugins st
      = .error (st1, "Exception caught while executing event "
                  ++ toString st1.eventCount ++ "\n" ++ msg) ∧
    ∀ result, runSimulationStep runNext silentMode hasOutputPlugins st ≠ .ok result := by
  have hwrap : runSimulationStep runNext silentMode hasOutputPlugins st
      = .error (st1, "Exception caught while executing event "
                  ++ toString st1.eventCount ++ "\n" ++ msg) := by
    rw [runSimulationStep, if_neg (not_lt_of_le hinit), herr]
  exact ⟨hwrap, fun result hok => by rw [hwrap] at hok; exact Except.noConfusion hok⟩

/-- Witness for C7: a scheduler that throws `"boom"` at event count 3. -/
theorem runSimulationStep_wraps_exception_witness :
    runSimulationStep (fun s => .error (s, "boom")) false false ⟨10, 3, 100, 0, 50, 50⟩
      = .error (⟨10, 3, 100, 0, 50, 50⟩,
          "Exception caught while executing event " ++ toString (3 : Nat) ++ "\n" ++ "boom") ∧
    ∀ result, runSimulationStep (fun s => .error (s, "boom")) false false
        ⟨10, 3, 100, 0, 50, 50⟩ ≠ .ok result :=
  runSimulationStep_wraps_exception (fun s => .error (s, "boom")) false false
    ⟨10, 3, 100, 0, 50, 50⟩ ⟨10, 3, 100, 0, 50, 50⟩ "boom" (by decide) rfl

/-- A single `runSimulationStep` from a state whose event count has reached
`endEventCount` completes with `false` and keeps `endEventCount ≤
eventCount`, provided the scheduler never decreases the event count and
never touches `endEventCount` (it only increments `eventCount`). -/
theorem runSimulationStep_after_shutdown
    (runNext : SimStepState → Except (SimStepState × String) SimStepState)
    (silentMode hasOutputPlugins : Bool)
    (hmono : ∀ s s', runNext s = .ok s' →
      s.eventCount ≤ s'.eventCount ∧ s'.endEventCount = s.endEventCount)
    (st : SimStepState) (st' : SimStepState) (b : Bool)
    (hdone : st.endEventCount ≤ st.eventCount)
    (hstep : runSimulationStep runNext silentMode hasOutputPlugins st = .ok (st', b)) :
    b = false ∧ st'.endEventCount ≤ st'.eventCount := by
  rw [runSimulationStep] at hstep
  by_cases hlt : st.status < INITIALISED
  · rw [if_pos hlt] at hstep; exact absurd hstep (by simp)
  · rw [if_neg hlt] at hstep
    match hrun : runNext st with
    | .error e => rw [hrun] at hstep; exact absurd hstep (by simp)
    | .ok st1 =>
      rw [hrun] at hstep
      obtain ⟨hle, hend⟩ := hmono st st1 hrun
      have hdone1 : st1.endEventCount ≤ st1.eventCount :=
        hend ▸ le_trans hdone hle
      simp only at hstep
      split at hstep <;>
      · injection hstep with h1
        injection h1 with hst hb
        subst hst
        refine ⟨hb ▸ ?_, hdone1⟩
        simp [decide_eq_false (not_lt_of_le hdone1)]

/-- C8: after `Simulation::simShutdown()` sets `endEventCount = eventCount`,
the next completed call to `runSimulationStep` returns `false`, and so does
every subsequent completed call (the scheduler only increases
`eventCount`). -/
theorem simShutdown_steps_return_false
    (runNext : SimStepState → Except (SimStepState × String) SimStepState)
    (silentMode hasOutputPlugins : Bool)
    (hmono : ∀ s s', runNext s = .ok s' →
      s.eventCount ≤ s'.eventCount ∧ s'.endEventCount = s.endEventCount)
    (k : Nat) (st st' : SimStepState) (b : Bool)
    (hsteps : runSimulationSteps runNext silentMode hasOutputPlugins k (simShutdown st)
      = .ok (st', b)) :
    b = false := by
  have main : ∀ n s0 sfin bfin, s0.endEventCount ≤ s0.eventCount →
      runSimulationSteps runNext silentMode hasOutputPlugins n s0 = .ok (sfin, bfin) →
      bfin = false := by
    intro n
    induction n with
    | zero =>
      intro s0 sfin bfin hdone hsteps
      exact (runSimulationStep_after_shutdown runNext silentMode hasOutputPlugins hmono
        s0 sfin bfin hdone hsteps).1
    | succ m ih =>
      intro s0 sfin bfin hdone hsteps
      simp only [runSimulationSteps] at hsteps
      match hstep : runSimulationStep runNext silentMode hasOutputPlugins s0 with
      | .error e => rw [hstep] at hsteps; exact absurd hsteps (by simp)
      | .ok (s1, b1) =>
        rw [hstep] at hsteps
        have h1 := runSimulationStep_after_shutdown runNext silentMode hasOutputPlugins hmono
          s0 s1 b1 hdone hstep
        exact ih s1 sfin bfin h1.2 hsteps
  exact main k (simShutdown st) st' b (le_refl _) hsteps

/-- Witness for C8: a scheduler that just increments the event count; after
shutdown at event count 5, the second completed step returns `false`. -/
theorem simShutdown_steps_return_false_witness :
    runSimulationSteps (fun s => .ok { s with eventCount := s.eventCount + 1 }) false false 1
      (simShutdown ⟨10, 5, 100, 0, 50, 50⟩) = .ok (⟨10, 7, 5, 5, 50, 50⟩, false) ∧
    (false : Bool) = false :=
  ⟨rfl,
   simShutdown_steps_return_false (fun s => .ok { s with eventCount := s.eventCount + 1 })
     false false
     (fun s s' h => by cases h; exact ⟨Nat.le_succ _, rfl⟩)
     1 ⟨10, 5, 100, 0, 50, 50⟩ ⟨10, 7, 5, 5, 50, 50⟩ false rfl⟩

/-- Scaling every velocity by `s` scales the summed squares by `s ^ 2`. -/
theorem sum_sq_map_mul (l : List Real) (s : Real) :
    ((l.map (fun v => v * s)).map (fun v => v ^ 2)).sum
      = s ^ 2 * (l.map (fun v => v ^ 2)).sum := by
  induction l with
  | nil => simp
  | cons x xs ih =>
    simp only [List.map_cons, List.sum_cons, ih]
    ring
/-! ### Theorems for claims C9, C10 and C4 -/

/-- C9: with current packing fraction φ and growth rate γ,
`IPCompression::limitPackingFraction(target)` with `target ≥ φ` schedules a
system halt at `((target/φ)^(1/3) − 1)/γ`, and with `target < φ` fails with
an error and schedules nothing. -/
theorem limitPackingFraction_spec (growthRate packfrac targetp : Real)
    (systems : List Real) (_hphi : 0 < packfrac) (_hgamma : 0 < growthRate) :
    (packfrac ≤ targetp →
      limitPackingFraction growthRate packfrac targetp systems
        = .ok (systems ++ [((targetp / packfrac) ^ ((1 : Real)/3) - 1) / growthRate])) ∧
    (targetp < packfrac →
      ∃ e, limitPackingFraction growthRate packfrac targetp systems = .error e) := by
  constructor
  · intro h
    rw [limitPackingFraction, if_neg (not_lt_of_le h)]
  · intro h
    rw [limitPackingFraction, if_pos h]
    exact ⟨_, rfl⟩

/-- Witness for C9 at φ = 1, γ = 1: target 2 schedules the halt, target
1/2 errors. -/
theorem limitPackingFraction_spec_witness :
    (limitPackingFraction 1 1 2 []
      = .ok ([] ++ [((2 / 1 : Real) ^ ((1 : Real)/3) - 1) / 1]) ∧
     ∃ e, limitPackingFraction 1 1 (1/2) [] = .error e) :=
  ⟨(limitPackingFraction_spec 1 1 2 [] (by norm_num) (by norm_num)).1 (by norm_num),
   (limitPackingFraction_spec 1 1 (1/2) [] (by norm_num) (by norm_num)).2 (by norm_num)⟩

/-- C10: when the recomputed sentinel event time is `HUGE_VAL` (the
particle has numerically drifted past its parabola apex),
`GParabolaSentinel::runEvent` performs only a full scheduler update for
the particle: the simulation clock `dSysTime`, the free-stream accumulator,
the scheduler's streamed time, the system-streamed time and the particle's
state (beyond streaming it to the current time) are all unchanged. -/
theorem GParabolaSentinel_runEvent_huge_val (sentinelTime : PState → Option Real)
    (updatePart : Real → PState → PState) (enforceParabola : PState → PState)
    (st : SentinelSimState)
    (hhuge : sentinelTime (updatePart st.dSysTime (updatePart st.dSysTime st.part)) = none) :
    GParabolaSentinel_runEvent sentinelTime updatePart enforceParabola st
      = { st with part := updatePart st.dSysTime (updatePart st.dSysTime st.part)
                , fullUpdates := st.fullUpdates + 1 } := by
  rw [GParabolaSentinel_runEvent]
  simp only [GParabolaSentinel_getEvent, hhuge]

/-- Witness for C10: a sentinel that always reports `HUGE_VAL`, a Newtonian
`updateParticle`, at a concrete state. -/
theorem GParabolaSentinel_runEvent_huge_val_witness :
    GParabolaSentinel_runEvent (fun _ => none)
      (fun (t : Real) (p : PState) => (⟨p.pos + p.vel * (t - p.pecTime), p.vel, t⟩ : PState)) id
      ⟨1, 2, 3, 4, ⟨5, 6, 0⟩, 7⟩
      = { dSysTime := 1, freestreamAcc := 2, schedStreamed := 3, systemsStreamed := 4
        , part := (fun (t : Real) (p : PState) =>
              (⟨p.pos + p.vel * (t - p.pecTime), p.vel, t⟩ : PState)) 1
            ((fun (t : Real) (p : PState) =>
              (⟨p.pos + p.vel * (t - p.pecTime), p.vel, t⟩ : PState)) 1 ⟨5, 6, 0⟩)
        , fullUpdates := 7 + 1 } :=
  GParabolaSentinel_runEvent_huge_val (fun _ => none)
    (fun (t : Real) (p : PState) => (⟨p.pos + p.vel * (t - p.pecTime), p.vel, t⟩ : PState)) id
    ⟨1, 2, 3, 4, ⟨5, 6, 0⟩, 7⟩ rfl

/-- Counterexample for C4: after `replexerSwap`, A's total kinetic energy
does not in general equal B's pre-exchange kinetic energy.  With both
ensembles at temperature 1 (`scale1 = sqrt(1) = 1`), A's velocities are
unchanged, so A keeps its own kinetic energy 4 while B's pre-exchange
kinetic energy is 0. -/
theorem replexerSwap_ke_not_partner :
    kineticEnergy (replexerSwap
        ⟨0, 0, 0, [2], [], false, fun _ => 1⟩
        ⟨0, 0, 0, [0], [], false, fun _ => 1⟩).1
      ≠ kineticEnergy ⟨0, 0, 0, [0], [], false, fun _ => 1⟩ := by
  simp only [replexerSwap, kineticEnergy, List.map_cons, List.map_nil, List.sum_cons,
    List.sum_nil]
  rw [div_one, Real.sqrt_one]
  norm_num

/-- C4 (amended): `Simulation::replexerSwap(A, B)` swaps the system clocks
and event counts, multiplies every velocity in A by
`scale1 = sqrt(T_B/T_A)` and every velocity in B by `1/scale1`, rescales
A's scheduler times by `1/scale1` and B's by `scale1`, rebuilds both
schedulers' SYSTEM events and swaps the ensembles; afterwards A's total
kinetic energy equals `(T_B/T_A)` times A's own pre-exchange kinetic
energy, and B's equals `(T_A/T_B)` times B's (these equal the partner's
pre-exchange kinetic energy exactly when the two simulations satisfy
equipartition with a common proportionality, not in general). -/
theorem replexerSwap_spec (a b : ReplexSim)
    (hTa : 0 < a.ensembleVals 2) (hTb : 0 < b.ensembleVals 2) :
    ReplexSwapSpec a b := by
  have hratio : (0 : Real) ≤ b.ensembleVals 2 / a.ensembleVals 2 :=
    le_of_lt (div_pos hTb hTa)
  have hsq : Real.sqrt (b.ensembleVals 2 / a.ensembleVals 2) ^ 2
      = b.ensembleVals 2 / a.ensembleVals 2 := Real.sq_sqrt hratio
  refine ⟨rfl, rfl, rfl, rfl, rfl, rfl, rfl, rfl, rfl, rfl, rfl, rfl, ?_, ?_⟩
  · show ((a.velocities.map _).map _).sum = _
    rw [sum_sq_map_mul, hsq]
    rfl
  · show ((b.velocities.map _).map _).sum = _
    rw [sum_sq_map_mul, one_div, inv_pow, hsq]
    rw [← one_div, one_div_div]
    rfl

/-- Witness for C4 (amended) at concrete simulations with temperatures 1
and 4. -/
theorem replexerSwap_spec_witness :
    ReplexSwapSpec ⟨0, 1, 2, [1], [1], false, fun _ => 1⟩
      ⟨5, 2, 3, [2], [2], false, fun _ => 4⟩ :=
  replexerSwap_spec ⟨0, 1, 2, [1], [1], false, fun _ => 1⟩
    ⟨5, 2, 3, [2], [2], false, fun _ => 4⟩ (by norm_num) (by norm_num)

/-! ### Helper lemmas for the cell-list proofs -/

/-- Pointwise description of `removePCD`: the spliced `prev` of `ID`'s
successor, the spliced `next` of `ID`'s predecessor, all cells untouched. -/
theorem removePCD_eval (pcd : Int → PartCEntry) (x y : Int) :
    removePCD pcd x y =
      ⟨if (pcd x).next ≠ -1 ∧ y = (pcd x).next then (pcd x).prev else (pcd y).prev,
       if (pcd x).prev ≠ -1 ∧ y = (pcd x).prev then (pcd x).next else (pcd y).next,
       (pcd y).cell⟩ := by
  rw [removePCD]
  by_cases h1 : (pcd x).prev = -1 <;> by_cases h2 : (pcd x).next = -1 <;>
    by_cases h3 : y = (pcd x).prev <;> by_cases h4 : y = (pcd x).next <;>
    simp [updPrev, updNext, h1, h2, h3, h4] <;> simp_all

/-- Pointwise description of `addPCD`: `ID`'s entry becomes
`{prev = -1, next = oldHead, cell = cellID}`, the old head's `prev`
becomes `ID`, everything else is untouched. -/
theorem addPCD_eval (pcd : Int → PartCEntry) (x cellID h0 y : Int) :
    addPCD pcd x cellID h0 y =
      if y = x then ⟨-1, h0, cellID⟩
      else if h0 ≠ -1 ∧ y = h0 then ⟨x, (pcd y).next, (pcd y).cell⟩
      else pcd y := by
  rw [addPCD]
  by_cases h1 : h0 = -1 <;> by_cases h2 : y = x <;> by_cases h3 : y = h0 <;>
    simp [updPrev, updNext, updCell, h1, h2, h3] <;> simp_all

/-- Unfolding of `chainB` at a cons cell, in propositional form. -/
theorem chainB_cons (pcd : Int → PartCEntry) (c p h x : Int) (rest : List Int) :
    chainB pcd c p h (x :: rest) = true ↔
      h = x ∧ 0 ≤ x ∧ (pcd x).prev = p ∧ (pcd x).cell = c ∧
      chainB pcd c x (pcd x).next rest = true := by
  simp [chainB, Bool.and_eq_true, and_assoc]

/-- Unfolding of `chainB` at the empty chain, in propositional form. -/
theorem chainB_nil (pcd : Int → PartCEntry) (c p h : Int) :
    chainB pcd c p h [] = true ↔ h = -1 := by
  simp [chainB]

/-- `chainB` only dereferences the entries of the chain's members. -/
theorem chainB_congr (pcd pcd' : Int → PartCEntry) (c : Int) (l : List Int)
    (hsame : ∀ y ∈ l, pcd' y = pcd y) :
    ∀ p h, chainB pcd' c p h l = chainB pcd c p h l := by
  induction l with
  | nil => intro p h; rfl
  | cons a rest ih =>
    intro p h
    have ha : pcd' a = pcd a := hsame a (List.mem_cons_self a rest)
    have ihr := ih (fun y hy => hsame y (List.mem_cons_of_mem a hy))
    simp only [chainB, ha, ihr]

/-- Every member of a well-formed chain is a valid (non-negative) particle
ID whose entry carries the chain's cell. -/
theorem chainB_mem_props (pcd : Int → PartCEntry) (c : Int) (l : List Int) :
    ∀ p h, chainB pcd c p h l = true → ∀ y ∈ l, 0 ≤ y ∧ (pcd y).cell = c := by
  induction l with
  | nil => intro p h _ y hy; cases hy
  | cons a rest ih =>
    intro p h hch y hy
    rw [chainB_cons] at hch
    obtain ⟨-, ha0, -, hacell, htail⟩ := hch
    rcases List.mem_cons.mp hy with rfl | hy'
    · exact ⟨ha0, hacell⟩
    · exact ih a (pcd a).next htail y hy'

/-- The default-carrying last element of a non-empty list is a member. -/
theorem lastOr_mem (l : List Int) : ∀ p : Int, l ≠ [] → lastOr l p ∈ l := by
  induction l with
  | nil => intro p h; exact absurd rfl h
  | cons a rest ih =>
    intro p _
    cases rest with
    | nil => simp [lastOr]
    | cons b t =>
      have h2 := ih a (by simp)
      simp only [lastOr]
      exact List.mem_cons_of_mem a h2

/-- The links of a chain member `x`: its `prev` is the element before it
(or the chain's entry pointer `p` when `x` is first) and its `next` is the
element after it (or `-1` when `x` is last). -/
theorem chainB_mid (pcd : Int → PartCEntry) (c x : Int) (l₂ : List Int) :
    ∀ (l₁ : List Int) (p h : Int),
      chainB pcd c p h (l₁ ++ x :: l₂) = true →
      (pcd x).prev = lastOr l₁ p ∧ (pcd x).next = headOr l₂ := by
  intro l₁
  induction l₁ with
  | nil =>
    intro p h hch
    rw [List.nil_append, chainB_cons] at hch
    obtain ⟨-, -, hprev, -, htail⟩ := hch
    refine ⟨hprev, ?_⟩
    cases l₂ with
    | nil => rw [chainB_nil] at htail; exact htail
    | cons y rest => exact ((chainB_cons pcd c x _ y rest).mp htail).1
  | cons a t ih =>
    intro p h hch
    rw [List.cons_append, chainB_cons] at hch
    exact ih a (pcd a).next hch.2.2.2.2

/-- The `prev` field after `removePCD`. -/
theorem removePCD_prev (pcd : Int → PartCEntry) (x y : Int) :
    (removePCD pcd x y).prev
      = if (pcd x).next ≠ -1 ∧ y = (pcd x).next then (pcd x).prev else (pcd y).prev := by
  rw [removePCD_eval]

/-- The `next` field after `removePCD`. -/
theorem removePCD_next (pcd : Int → PartCEntry) (x y : Int) :
    (removePCD pcd x y).next
      = if (pcd x).prev ≠ -1 ∧ y = (pcd x).prev then (pcd x).next else (pcd y).next := by
  rw [removePCD_eval]

/-- `removePCD` never changes a `cell` field. -/
theorem removePCD_cell (pcd : Int → PartCEntry) (x y : Int) :
    (removePCD pcd x y).cell = (pcd y).cell := by
  rw [removePCD_eval]

/-- Entries other than the removed particle's neighbours are untouched by
`removePCD`. -/
theorem removePCD_untouched (pcd : Int → PartCEntry) (x y : Int)
    (h1 : y ≠ (pcd x).prev) (h2 : y ≠ (pcd x).next) :
    removePCD pcd x y = pcd y := by
  rw [removePCD_eval, if_neg (fun hc => h2 hc.2), if_neg (fun hc => h1 hc.2)]

/-- The added particle's entry after `addPCD`. -/
theorem addPCD_self (pcd : Int → PartCEntry) (x cellID h0 : Int) :
    addPCD pcd x cellID h0 x = ⟨-1, h0, cellID⟩ := by
  rw [addPCD_eval, if_pos rfl]

/-- Entries other than the added particle and the old head are untouched by
`addPCD`. -/
theorem addPCD_untouched (pcd : Int → PartCEntry) (x cellID h0 y : Int)
    (h1 : y ≠ x) (h2 : y ≠ h0) :
    addPCD pcd x cellID h0 y = pcd y := by
  rw [addPCD_eval, if_neg h1, if_neg (fun hc => h2 hc.2)]

/-- A chain's head pointer is its first member (or `-1`). -/
theorem chainB_head (pcd : Int → PartCEntry) (c p h : Int) (l : List Int)
    (hch : chainB pcd c p h l = true) : h = headOr l := by
  cases l with
  | nil => rw [chainB_nil] at hch; exact hch
  | cons y rest => exact ((chainB_cons pcd c p h y rest).mp hch).1

/-- Splicing a member out of a well-formed chain (the `partCellData` part
of `CGCells::removeFromCell`) leaves a well-formed chain over the member's
removal; the resulting head pointer is the removed member's `next` when it
was first, and the unchanged head otherwise. -/
theorem chainB_remove (pcd : Int → PartCEntry) (c x : Int) (l₂ : List Int) :
    ∀ (l₁ : List Int) (p h : Int),
      chainB pcd c p h (l₁ ++ x :: l₂) = true →
      (l₁ ++ x :: l₂).Nodup →
      p ∉ l₁ ++ x :: l₂ →
      chainB (removePCD pcd x) c p
        (if l₁.isEmpty then (pcd x).next else h) (l₁ ++ l₂) = true := by
  intro l₁
  induction l₁ with
  | nil =>
    intro p h hch hnd hp
    simp only [List.nil_append] at hch hnd hp ⊢
    show chainB (removePCD pcd x) c p (pcd x).next l₂ = true
    rw [chainB_cons] at hch
    obtain ⟨-, hx0, hprevx, hcellx, htail⟩ := hch
    have hxl₂ : x ∉ l₂ := (List.nodup_cons.mp hnd).1
    have hndl₂ : l₂.Nodup := (List.nodup_cons.mp hnd).2
    have hpx : p ≠ x := fun hpe => hp (hpe ▸ List.mem_cons_self x l₂)
    have hpl₂ : p ∉ l₂ := fun hpe => hp (List.mem_cons_of_mem x hpe)
    cases l₂ with
    | nil => rw [chainB_nil] at htail ⊢; exact htail
    | cons y rest =>
      rw [chainB_cons] at htail
      obtain ⟨hny, hy0, hprevy, hcelly, htail2⟩ := htail
      rw [chainB_cons]
      have hyrest : y ∉ rest := (List.nodup_cons.mp hndl₂).1
      refine ⟨hny, hy0, ?_, ?_, ?_⟩
      · rw [removePCD_prev, if_pos ⟨by omega, hny.symm⟩]
        exact hprevx
      · rw [removePCD_cell]; exact hcelly
      · have hynext : (removePCD pcd x y).next = (pcd y).next := by
          rw [removePCD_next, if_neg]
          intro hcond
          have hyp : y = p := hcond.2.trans hprevx
          exact hpl₂ (by rw [← hyp]; exact List.mem_cons_self y rest)
        rw [hynext,
          chainB_congr pcd (removePCD pcd x) c rest
            (fun z hz => removePCD_untouched pcd x z
              (fun hze => hpl₂ (by
                rw [← hze.trans hprevx]
                exact List.mem_cons_of_mem y hz))
              (fun hze => hyrest (by rw [← hze.trans hny]; exact hz)))
            y (pcd y).next]
        exact htail2
  | cons a t ih =>
    intro p h hch hnd hp
    show chainB (removePCD pcd x) c p h (a :: (t ++ l₂)) = true
    rw [List.cons_append, chainB_cons] at hch
    obtain ⟨hha, ha0, hpreva, hcella, htail⟩ := hch
    have hat : a ∉ t ++ x :: l₂ := (List.nodup_cons.mp hnd).1
    have hnd' : (t ++ x :: l₂).Nodup := (List.nodup_cons.mp hnd).2
    have hmid := chainB_mid pcd c x l₂ t a (pcd a).next htail
    rw [chainB_cons]
    have hanx : a ≠ (pcd x).next := by
      rw [hmid.2]
      cases l₂ with
      | nil => show a ≠ headOr []; rw [headOr]; omega
      | cons y rest =>
        show a ≠ headOr (y :: rest)
        rw [headOr]
        intro hay
        refine hat ?_
        rw [hay]
        exact List.mem_append_right t (List.mem_cons_of_mem x (List.mem_cons_self y rest))
    refine ⟨hha, ha0, ?_, ?_, ?_⟩
    · rw [removePCD_prev, if_neg (fun hc => hanx hc.2)]
      exact hpreva
    · rw [removePCD_cell]; exact hcella
    · have hnexta : (removePCD pcd x a).next
          = (if t.isEmpty then (pcd x).next else (pcd a).next) := by
        cases t with
        | nil =>
          have hpa : (pcd x).prev = a := hmid.1
          rw [removePCD_next, if_pos ⟨by omega, hpa.symm⟩]
          rfl
        | cons b t' =>
          have hpa : (pcd x).prev ∈ b :: t' := hmid.1 ▸ lastOr_mem (b :: t') a (by simp)
          have hane : a ≠ (pcd x).prev := fun hae =>
            hat (List.mem_append_left _ (hae ▸ hpa))
          rw [removePCD_next, if_neg (fun hc => hane hc.2)]
          rfl
      rw [hnexta]
      exact ih a (pcd a).next htail hnd' hat

/-- Pushing a fresh particle at the front of a well-formed chain (the
`partCellData` part of `CGCells::addToCell`, with `h0` the cell's previous
head) yields a well-formed chain with the particle prepended. -/
theorem chainB_add (pcd : Int → PartCEntry) (c x h0 : Int) (l : List Int)
    (hch : chainB pcd c (-1) h0 l = true) (hx0 : 0 ≤ x) (hxl : x ∉ l)
    (hnd : l.Nodup) :
    chainB (addPCD pcd x c h0) c (-1) x (x :: l) = true := by
  rw [chainB_cons]
  refine ⟨rfl, hx0, ?_, ?_, ?_⟩
  · rw [addPCD_self]
  · rw [addPCD_self]
  · rw [addPCD_self]
    show chainB (addPCD pcd x c h0) c x h0 l = true
    cases l with
    | nil => rw [chainB_nil] at hch ⊢; exact hch
    | cons y rest =>
      rw [chainB_cons] at hch
      obtain ⟨hh0y, hy0, hprevy, hcelly, htail⟩ := hch
      rw [chainB_cons]
      have hyx : y ≠ x := fun hh => hxl (hh ▸ List.mem_cons_self y rest)
      have hyrest : y ∉ rest := (List.nodup_cons.mp hnd).1
      have hheady : addPCD pcd x c h0 y = ⟨x, (pcd y).next, (pcd y).cell⟩ := by
        rw [addPCD_eval, if_neg hyx, if_pos ⟨by omega, hh0y.symm⟩]
      refine ⟨hh0y, hy0, ?_, ?_, ?_⟩
      · rw [hheady]
      · rw [hheady]; exact hcelly
      · rw [hheady]
        show chainB (addPCD pcd x c h0) c y (pcd y).next rest = true
        rw [chainB_congr pcd (addPCD pcd x c h0) c rest
          (fun z hz => addPCD_untouched pcd x c h0 z
            (fun hze => hxl (by rw [← hze]; exact List.mem_cons_of_mem y hz))
            (fun hze => hyrest (by rw [← hze.trans hh0y]; exact hz)))
          y (pcd y).next]
        exact htail

/-- Membership in a moved chain assignment. -/
theorem mem_moveChains (A : Int → List Int) (x cT c' y : Int) :
    y ∈ moveChains A x cT c' ↔ (y = x ∧ c' = cT) ∨ (y ≠ x ∧ y ∈ A c') := by
  rw [moveChains]
  by_cases h : c' = cT <;> by_cases hyx : y = x <;>
    simp [h, hyx, List.mem_filter]

/-- Projection of `addToCell`: the `partCellData` update. -/
theorem addToCell_partCellData (st : CellListState) (x cellID : Int) :
    (addToCell st x cellID).partCellData
      = addPCD st.partCellData x cellID (st.list cellID) := rfl

/-- Projection of `addToCell`: the head of the target cell becomes the
added particle. -/
theorem addToCell_list (st : CellListState) (x cellID c : Int) :
    (addToCell st x cellID).list c = if c = cellID then x else st.list c := rfl

/-- Projection of `removeFromCell`: the `partCellData` update. -/
theorem removeFromCell_partCellData (st : CellListState) (x : Int) :
    (removeFromCell st x).partCellData = removePCD st.partCellData x := rfl

/-- `moveChains` at the target cell. -/
theorem moveChains_target (A : Int → List Int) (x cT : Int) :
    moveChains A x cT cT = x :: (A cT).filter (fun y => y ≠ x) := by
  rw [moveChains, if_pos rfl]

/-- `moveChains` away from the target cell. -/
theorem moveChains_other (A : Int → List Int) (x cT c' : Int) (h : c' ≠ cT) :
    moveChains A x cT c' = (A c').filter (fun y => y ≠ x) := by
  rw [moveChains, if_neg h]

/-- C3: starting from a cell-list state whose cells are well-formed
doubly-linked chains over `partCellData` with every particle in exactly one
cell, `removeFromCell(ID)` followed by `addToCell(ID, c)` preserves the
well-formedness, places particle `ID` (alone) in cell `c`, and leaves the
cell membership and chain position of every other particle unchanged. -/
theorem cellList_move_preserves_wf
    (cfg : CellConfig) (st : CellListState) (A : Int → List Int) (x cTarget : Int)
    (hwf : wfCellList cfg st A) (hx : x ∈ cfg.parts) (hct : cTarget ∈ cfg.cells) :
    wfCellList cfg (addToCell (removeFromCell st x) x cTarget) (moveChains A x cTarget) ∧
    x ∈ moveChains A x cTarget cTarget ∧
    (∀ c' ∈ cfg.cells, x ∈ moveChains A x cTarget c' → c' = cTarget) ∧
    (∀ y ∈ cfg.parts, y ≠ x → ∀ c' ∈ cfg.cells,
      (y ∈ moveChains A x cTarget c' ↔ y ∈ A c')) := by
  obtain ⟨hchains, hnds, hmems, hcover, huniq⟩ := hwf
  obtain ⟨c0, hc0, hxc0⟩ := hcover x hx
  obtain ⟨l₁, l₂, hsplit⟩ := List.append_of_mem hxc0
  have hchain0 : chainB st.partCellData c0 (-1) (st.list c0) (l₁ ++ x :: l₂) = true := by
    have h := hchains c0 hc0
    rwa [cellChain, hsplit] at h
  have hnd0 : (l₁ ++ x :: l₂).Nodup := by
    have h := hnds c0 hc0; rwa [hsplit] at h
  have hprops0 := chainB_mem_props st.partCellData c0 (l₁ ++ x :: l₂) (-1) (st.list c0) hchain0
  have hxmem0 : x ∈ l₁ ++ x :: l₂ := List.mem_append_right l₁ (List.mem_cons_self x l₂)
  have hx0 : 0 ≤ x := (hprops0 x hxmem0).1
  have hcellx : (st.partCellData x).cell = c0 := (hprops0 x hxmem0).2
  have hmid := chainB_mid st.partCellData c0 x l₂ l₁ (-1) (st.list c0) hchain0
  have hneg1 : (-1 : Int) ∉ l₁ ++ x :: l₂ := fun hmem => by
    have := (hprops0 (-1) hmem).1; omega
  have hndl₁ : l₁.Nodup := (List.nodup_append.mp hnd0).1
  have hndxl₂ : (x :: l₂).Nodup := (List.nodup_append.mp hnd0).2.1
  have hdisj : l₁.Disjoint (x :: l₂) := (List.nodup_append.mp hnd0).2.2
  have hx_l₁ : x ∉ l₁ := fun hmem => hdisj hmem (List.mem_cons_self x l₂)
  have hx_l₂ : x ∉ l₂ := (List.nodup_cons.mp hndxl₂).1
  have hfil : ∀ (l : List Int), x ∉ l → l.filter (fun y => y ≠ x) = l := by
    intro l hxn
    rw [List.filter_eq_self]
    intro a ha
    simp only [decide_eq_true_eq]
    exact fun hax => hxn (hax ▸ ha)
  have hfilter0 : (A c0).filter (fun y => y ≠ x) = l₁ ++ l₂ := by
    have hxl : (x :: l₂).filter (fun y => y ≠ x) = l₂ := by
      have hdx : (decide (x ≠ x)) = false := by simp
      rw [List.filter_cons, hdx, if_neg (show ¬(false = true) by simp)]
      exact hfil l₂ hx_l₂
    rw [hsplit, List.filter_append, hfil l₁ hx_l₁, hxl]
  have hxAc' : ∀ c' ∈ cfg.cells, c' ≠ c0 → x ∉ A c' := by
    intro c' hc' hne hmem
    exact hne (huniq x hx c' hc' c0 hc0 hmem hxc0)
  -- the state after removeFromCell
  have hlist1 : ∀ c', c' ≠ c0 → (removeFromCell st x).list c' = st.list c' := by
    intro c' hne
    show (if (st.partCellData x).prev ≠ -1 then st.list
          else fun c => if c = (st.partCellData x).cell then (st.partCellData x).next
                        else st.list c) c' = st.list c'
    by_cases hp : (st.partCellData x).prev ≠ -1
    · rw [if_pos hp]
    · rw [if_neg hp]
      show (if c' = (st.partCellData x).cell then (st.partCellData x).next
            else st.list c') = st.list c'
      rw [if_neg (by rw [hcellx]; exact hne)]
  have hlist1c0 : (removeFromCell st x).list c0
      = (if l₁.isEmpty then (st.partCellData x).next else st.list c0) := by
    show (if (st.partCellData x).prev ≠ -1 then st.list
          else fun c => if c = (st.partCellData x).cell then (st.partCellData x).next
                        else st.list c) c0 = _
    cases l₁ with
    | nil =>
      have hprev : (st.partCellData x).prev = -1 := hmid.1
      rw [if_neg (by rw [hprev]; exact fun hcon => hcon rfl)]
      show (if c0 = (st.partCellData x).cell then (st.partCellData x).next
            else st.list c0) = _
      rw [if_pos (by rw [hcellx])]
      rfl
    | cons a t =>
      have hprevmem : (st.partCellData x).prev ∈ a :: t := by
        rw [hmid.1]
        exact lastOr_mem (a :: t) (-1) (by simp)
      have hprev0 : 0 ≤ (st.partCellData x).prev :=
        (hprops0 _ (List.mem_append_left _ hprevmem)).1
      rw [if_pos (by omega)]
      rfl
  have heprev_cases : (st.partCellData x).prev = -1
      ∨ (st.partCellData x).prev ∈ l₁ ++ x :: l₂ := by
    cases l₁ with
    | nil => exact Or.inl hmid.1
    | cons a t =>
      refine Or.inr (List.mem_append_left _ ?_)
      rw [hmid.1]
      exact lastOr_mem (a :: t) (-1) (by simp)
  have henext_cases : (st.partCellData x).next = -1
      ∨ (st.partCellData x).next ∈ l₁ ++ x :: l₂ := by
    cases l₂ with
    | nil => exact Or.inl hmid.2
    | cons y rest =>
      refine Or.inr ?_
      rw [hmid.2]
      exact List.mem_append_right _ (List.mem_cons_of_mem x (List.mem_cons_self y rest))
  have huntouched : ∀ y, 0 ≤ y → y ∉ l₁ ++ x :: l₂ →
      removePCD st.partCellData x y = st.partCellData y := by
    intro y hy0 hymem
    refine removePCD_untouched st.partCellData x y ?_ ?_
    · rcases heprev_cases with hh | hh
      · intro hye; omega
      · exact fun hye => hymem (by rw [hye]; exact hh)
    · rcases henext_cases with hh | hh
      · intro hye; omega
      · exact fun hye => hymem (by rw [hye]; exact hh)
  have hchain1 : ∀ c' ∈ cfg.cells,
      chainB (removePCD st.partCellData x) c' (-1) ((removeFromCell st x).list c')
        ((A c').filter (fun y => y ≠ x)) = true := by
    intro c' hc'
    by_cases hce : c' = c0
    · subst hce
      rw [hfilter0, hlist1c0]
      exact chainB_remove st.partCellData c' x l₂ l₁ (-1) (st.list c') hchain0 hnd0 hneg1
    · have hxnot : x ∉ A c' := hxAc' c' hc' hce
      have horig : chainB st.partCellData c' (-1) (st.list c') (A c') = true := by
        have h := hchains c' hc'; rwa [cellChain] at h
      have hprops' := chainB_mem_props st.partCellData c' (A c') (-1) (st.list c') horig
      rw [hfil (A c') hxnot, hlist1 c' hce,
        chainB_congr st.partCellData (removePCD st.partCellData x) c' (A c')
          (fun y hy => huntouched y (hprops' y hy).1
            (fun hymem => hce ((hprops' y hy).2.symm.trans (hprops0 y hymem).2)))
          (-1) (st.list c')]
      exact horig
  have hndfil : ∀ c' ∈ cfg.cells, ((A c').filter (fun y => y ≠ x)).Nodup :=
    fun c' hc' => (hnds c' hc').filter _
  have hxfil : ∀ c', x ∉ (A c').filter (fun y => y ≠ x) := by
    intro c' hmem
    rw [List.mem_filter] at hmem
    simp at hmem
  have hchainT : chainB (addPCD (removePCD st.partCellData x) x cTarget
      ((removeFromCell st x).list cTarget)) cTarget (-1) x
      (x :: (A cTarget).filter (fun y => y ≠ x)) = true :=
    chainB_add (removePCD st.partCellData x) cTarget x
      ((removeFromCell st x).list cTarget)
      ((A cTarget).filter (fun y => y ≠ x))
      (hchain1 cTarget hct) hx0 (hxfil cTarget) (hndfil cTarget hct)
  have hchain2 : ∀ c' ∈ cfg.cells, c' ≠ cTarget →
      chainB (addPCD (removePCD st.partCellData x) x cTarget
          ((removeFromCell st x).list cTarget)) c' (-1)
        ((removeFromCell st x).list c') ((A c').filter (fun y => y ≠ x)) = true := by
    intro c' hc' hne
    have h1 := hchain1 c' hc'
    have hpropsC := chainB_mem_props (removePCD st.partCellData x) c'
      ((A c').filter (fun y => y ≠ x)) (-1) ((removeFromCell st x).list c') h1
    have hpropsT := chainB_mem_props (removePCD st.partCellData x) cTarget
      ((A cTarget).filter (fun y => y ≠ x)) (-1)
      ((removeFromCell st x).list cTarget) (hchain1 cTarget hct)
    have hhead := chainB_head (removePCD st.partCellData x) cTarget (-1)
      ((removeFromCell st x).list cTarget) ((A cTarget).filter (fun y => y ≠ x))
      (hchain1 cTarget hct)
    rw [chainB_congr (removePCD st.partCellData x)
      (addPCD (removePCD st.partCellData x) x cTarget
        ((removeFromCell st x).list cTarget))
      c' ((A c').filter (fun y => y ≠ x))
      (fun y hy => addPCD_untouched (removePCD st.partCellData x) x cTarget
        ((removeFromCell st x).list cTarget) y
        (fun hyx => hxfil c' (hyx ▸ hy))
        (fun hyh0 => by
          rw [hhead] at hyh0
          cases hLT : (A cTarget).filter (fun y => y ≠ x) with
          | nil =>
            rw [hLT] at hyh0
            have := (hpropsC y hy).1
            rw [headOr] at hyh0
            omega
          | cons w ws =>
            rw [hLT] at hyh0
            rw [headOr] at hyh0
            have hwcell : ((removePCD st.partCellData x) w).cell = cTarget :=
              (hpropsT w (by rw [hLT]; exact List.mem_cons_self w ws)).2
            have hycell : ((removePCD st.partCellData x) y).cell = c' :=
              (hpropsC y hy).2
            rw [hyh0] at hycell
            exact hne (hycell.symm.trans hwcell)))
      (-1) ((removeFromCell st x).list c')]
    exact h1
  refine ⟨⟨?_, ?_, ?_, ?_, ?_⟩, ?_, ?_, ?_⟩
  · -- chains encode
    intro c' hc'
    rw [cellChain, addToCell_partCellData, removeFromCell_partCellData, addToCell_list]
    by_cases hce : c' = cTarget
    · subst hce
      rw [if_pos rfl, moveChains_target]
      exact hchainT
    · rw [if_neg hce, moveChains_other A x cTarget c' hce]
      exact hchain2 c' hc' hce
  · -- no duplicates
    intro c' hc'
    by_cases hce : c' = cTarget
    · rw [hce, moveChains_target]
      exact List.nodup_cons.mpr ⟨hxfil cTarget, hndfil cTarget hct⟩
    · rw [moveChains_other A x cTarget c' hce]
      exact hndfil c' hc'
  · -- members are particles
    intro c' hc' y hy
    rcases (mem_moveChains A x cTarget c' y).mp hy with ⟨hyx, -⟩ | ⟨-, hymem⟩
    · rw [hyx]; exact hx
    · exact hmems c' hc' y hymem
  · -- coverage
    intro y hy
    by_cases hyx : y = x
    · exact ⟨cTarget, hct, (mem_moveChains A x cTarget cTarget y).mpr (Or.inl ⟨hyx, rfl⟩)⟩
    · obtain ⟨c, hc, hyc⟩ := hcover y hy
      exact ⟨c, hc, (mem_moveChains A x cTarget c y).mpr (Or.inr ⟨hyx, hyc⟩)⟩
  · -- uniqueness
    intro y hy c1 hc1 c2 hc2 hm1 hm2
    rcases (mem_moveChains A x cTarget c1 y).mp hm1 with ⟨hyx1, hcT1⟩ | ⟨hyne1, hmem1⟩
    · rcases (mem_moveChains A x cTarget c2 y).mp hm2 with ⟨-, hcT2⟩ | ⟨hyne2, -⟩
      · exact hcT1.trans hcT2.symm
      · exact absurd hyx1 hyne2
    · rcases (mem_moveChains A x cTarget c2 y).mp hm2 with ⟨hyx2, -⟩ | ⟨-, hmem2⟩
      · exact absurd hyx2 hyne1
      · exact huniq y hy c1 hc1 c2 hc2 hmem1 hmem2
  · -- x lands in cTarget
    exact (mem_moveChains A x cTarget cTarget x).mpr (Or.inl ⟨rfl, rfl⟩)
  · -- and only in cTarget
    intro c' _ hm
    rcases (mem_moveChains A x cTarget c' x).mp hm with ⟨-, h⟩ | ⟨hne, -⟩
    · exact h
    · exact absurd rfl hne
  · -- other particles keep their cell membership
    intro y _ hyx c' _
    rw [mem_moveChains]
    constructor
    · rintro (⟨h1, -⟩ | ⟨-, h2⟩)
      · exact absurd h1 hyx
      · exact h2
    · intro h
      exact Or.inr ⟨hyx, h⟩

/-- Witness for C3: two cells `0, 1`, particles `0, 1` chained in cell `0`
(`0 → 1`), and particle `1` is moved to cell `1`. -/
theorem cellList_move_preserves_wf_witness :
    wfCellList ⟨[0, 1], [0, 1]⟩
      (addToCell (removeFromCell
        ⟨fun j => if j = 0 then ⟨-1, 1, 0⟩ else if j = 1 then ⟨0, -1, 0⟩ else ⟨-1, -1, -1⟩,
         fun c => if c = 0 then 0 else -1⟩ 1) 1 1)
      (moveChains (fun c => if c = 0 then [0, 1] else []) 1 1) ∧
    (1 : Int) ∈ moveChains (fun c => if c = 0 then [0, 1] else []) 1 1 1 ∧
    (∀ c' ∈ ([0, 1] : List Int),
      (1 : Int) ∈ moveChains (fun c => if c = 0 then [0, 1] else []) 1 1 c' → c' = 1) ∧
    (∀ y ∈ ([0, 1] : List Int), y ≠ 1 → ∀ c' ∈ ([0, 1] : List Int),
      (y ∈ moveChains (fun c => if c = 0 then [0, 1] else []) 1 1 c'
        ↔ y ∈ (fun c => if c = 0 then [0, 1] else ([] : List Int)) c')) :=
  cellList_move_preserves_wf ⟨[0, 1], [0, 1]⟩
    ⟨fun j => if j = 0 then ⟨-1, 1, 0⟩ else if j = 1 then ⟨0, -1, 0⟩ else ⟨-1, -1, -1⟩,
     fun c => if c = 0 then 0 else -1⟩
    (fun c => if c = 0 then [0, 1] else []) 1 1
    (by unfold wfCellList; decide) (by decide) (by decide)

end DynamoSpec
